import Mathlib

/-!
Shallow embedding of the patch-application core of `metconst-tool`
(`src/main.rs` : `patch_in_dir`; `src/utils.rs` : `process_directory` and the
file-type predicates), together with theorems checking the specification's
claims about it.

Files are modelled as lists of bytes (`Nat`, with values understood to be
below 256).  A seek-then-write on a file handle is modelled by `write_at`,
`File::set_len` by `set_len`.
-/

namespace MetconstTool

/-- A byte of file content, modelled as a natural number. -/
abbrev Byte := Nat

/-- A single patch record: `hunk.offset()` and `hunk.payload()` of the parsed
patch (`src/main.rs` lines 226-229). -/
structure Hunk where
  offset : Nat
  payload : List Byte
deriving Repr, DecidableEq

/-- A parsed patch: the ordered hunk sequence `patch.hunks()` and the optional
`patch.truncation()` (`src/main.rs` lines 226-234). -/
structure Patch where
  hunks : List Hunk
  truncation : Option Nat
deriving Repr, DecidableEq

/-- Models `rom.seek(SeekFrom::Start(offset))` followed by
`rom.write_all(payload)` (`src/main.rs` lines 227-228) on a file whose
contents are `f`: bytes before `offset` are kept, a seek past end of file
zero-fills the gap (POSIX semantics of writing past EOF), the payload
overwrites `payload.length` bytes starting at `offset`, and bytes after the
written span are kept. -/
def write_at (f : List Byte) (offset : Nat) (payload : List Byte) : List Byte :=
  (f.take offset ++ List.replicate (offset - f.length) 0) ++ payload
    ++ f.drop (offset + payload.length)

/-- Models `rom.set_len(truncation)` (`src/main.rs` line 233): shrink to `n`
bytes, or zero-extend to `n` bytes when the file is shorter. -/
def set_len (f : List Byte) (n : Nat) : List Byte :=
  f.take n ++ List.replicate (n - f.length) 0

/-- The hunk loop of `patch_in_dir` (`src/main.rs` lines 226-229): apply each
hunk in parsed order by seeking to its offset and writing its payload. -/
def apply_hunks (f : List Byte) (hs : List Hunk) : List Byte :=
  hs.foldl (fun acc h => write_at acc h.offset h.payload) f

/-- Lines 226-234 of `src/main.rs`: apply all hunks in order, then apply the
truncation if the patch carries one. -/
def apply_patch (p : Patch) (f : List Byte) : List Byte :=
  match p.truncation with
  | some t => set_len (apply_hunks f p.hunks) t
  | none => apply_hunks f p.hunks

/-- The single error kind surfaced by the patch-format parser. -/
inductive PatchError where
  | malformedPatch
deriving Repr, DecidableEq

/-- Modelled from the spec: the patch-format parser (`ips::Patch::parse`,
called at `src/main.rs` line 223) is library code not present in this
repository's sources.  Following spec §4.1 and §6, the buffer after the
header is a linear sequence of records, each a 3-byte big-endian offset
followed by a 2-byte big-endian payload length and that many payload bytes
(payloads of well-formed hunks are non-empty, spec §3), terminated by an
end-of-hunks marker (`EOF`), optionally followed by a single 3-byte
truncation-length record; any malformed or truncated record fails the whole
parse with `MalformedPatch` and no partial `Patch` is produced.  The fuel
argument bounds recursion; each record consumes at least five bytes, so
callers pass the buffer length plus one, which always suffices. -/
def parse_records : Nat → List Byte → Except PatchError (List Hunk × Option Nat)
  | 0, _ => .error .malformedPatch
  | fuel + 1, bytes =>
    match bytes with
    | b0 :: b1 :: b2 :: rest =>
      if b0 == 69 && b1 == 79 && b2 == 70 then
        match rest with
        | [] => .ok ([], none)
        | [t0, t1, t2] => .ok ([], some (t0 * 65536 + t1 * 256 + t2))
        | _ => .error .malformedPatch
      else
        match rest with
        | l0 :: l1 :: rest2 =>
          if l0 == 0 && l1 == 0 then .error .malformedPatch
          else if rest2.length < l0 * 256 + l1 then .error .malformedPatch
          else
            match parse_records fuel (rest2.drop (l0 * 256 + l1)) with
            | .ok (hs, tr) =>
                .ok (⟨b0 * 65536 + b1 * 256 + b2, rest2.take (l0 * 256 + l1)⟩ :: hs, tr)
            | .error e => .error e
        | _ => .error .malformedPatch
    | _ => .error .malformedPatch

/-- Modelled from the spec: `ips::Patch::parse` on a raw buffer — check the
`PATCH` signature then parse the record sequence; any malformed input is
surfaced as the single `MalformedPatch` error kind (spec §4.1, §7). -/
def Patch.parse (buf : List Byte) : Except PatchError Patch :=
  match buf with
  | 80 :: 65 :: 84 :: 67 :: 72 :: rest =>
    match parse_records (rest.length + 1) rest with
    | .ok (hs, tr) => .ok ⟨hs, tr⟩
    | .error e => .error e
  | _ => .error .malformedPatch

/-- Lines 220-236 of `src/main.rs`, at the level of target-file contents:
the target starts as the fresh copy `base` of the base ROM, the patch buffer
is parsed (line 223, before any write), and only on parse success are the
hunks and the optional truncation applied.  Returns the operation's result
together with the final contents of the target file. -/
def patch_file_contents (patch_bytes base : List Byte) :
    Except PatchError Unit × List Byte :=
  match Patch.parse patch_bytes with
  | .error e => (.error e, base)
  | .ok p => (.ok (), apply_patch p base)

/-- The path data the output derivation of `patch_in_dir` consumes from a
discovered `DirEntry`: `entry.path().parent()` as a list of directory
components (or `none` when the path has no parent) and `entry.file_name()`
as a character string. -/
structure EntryPath where
  parent : Option (List String)
  fileName : List Char
deriving Repr, DecidableEq

/-- Outcome of the output-path derivation: a derived path, a recoverable
error returned as `Err` (caught at the per-file boundary by
`process_directory`), or a panic (which is not caught there and aborts the
process). -/
inductive PathOutcome where
  | ok (dir : List String) (file : List Char)
  | err (msg : List Char)
  | panicked
deriving Repr, DecidableEq

/-- Whether the outcome is a recoverable `Err` (the only outcomes the
per-file boundary of `process_directory` catches). -/
def PathOutcome.isErr : PathOutcome → Bool
  | .err _ => true
  | _ => false

/-- Models `str::rsplit_once(c)`: split at the last occurrence of `c`,
returning the parts before and after it, or `none` when `c` does not
occur. -/
def rsplit_once (c : Char) : List Char → Option (List Char × List Char)
  | [] => none
  | x :: xs =>
    match rsplit_once c xs with
    | some (l, r) => some (x :: l, r)
    | none => if x = c then some ([], xs) else none

/-- Models `PathBuf::set_extension(ext)` on a file name: the name is cut back
to its stem (the part before the last dot, except that a name whose only dot
is leading is its own stem), and a dot plus `ext` is appended when `ext` is
non-empty. -/
def set_extension (name ext : List Char) : List Char :=
  match rsplit_once '.' name with
  | some (stem, _) =>
    if stem = [] then (if ext = [] then name else name ++ '.' :: ext)
    else (if ext = [] then stem else stem ++ '.' :: ext)
  | none => if ext = [] then name else name ++ '.' :: ext

/-- Lines 191-198 of `src/main.rs`: derive the output path for a patch
entry.  `entry.path().parent()` missing yields the recoverable error
`"bad path"`; otherwise the output directory is `"patched"` followed by the
entry's parent components, the output file name starts as the entry's file
name, and its extension is replaced by the part of `base_rom` after its last
dot — obtained by `base_rom.rsplit_once('.')` followed by `.unwrap()`, which
panics when `base_rom` contains no dot. -/
def derive_rom_file (base_rom : List Char) (entry : EntryPath) : PathOutcome :=
  match entry.parent with
  | none => .err (String.toList "bad path")
  | some dir =>
    match rsplit_once '.' base_rom with
    | none => .panicked
    | some (_, e) => .ok ("patched" :: dir) (set_extension entry.fileName e)

/-- A directory entry as seen by `process_directory` (`src/utils.rs`):
its path rendered as text and whether `entry.file_type().is_file()`. -/
structure WalkEntry where
  path : List Char
  is_file : Bool
deriving Repr, DecidableEq

/-- The log line `process_directory` writes when the per-file action fails
(`src/utils.rs` lines 89-94): it names the entry's path and the error. -/
def action_error_line (path e : List Char) : List Char :=
  String.toList "Hit an error on " ++ path ++ String.toList ", but continuing: " ++ e

/-- The log line `process_directory` writes when the walk itself yields an
error for an entry (`src/utils.rs` lines 72-76). -/
def walk_error_line (e : List Char) : List Char :=
  String.toList "Skipping directory due to error: " ++ e

/-- Lines 58-100 of `src/utils.rs`: drive the per-file `action` over the
discovered entries (each either a walk error or an entry), writing to the
log sink and continuing past walk errors, past non-file entries, and past
per-file action errors.  Returns the driver's result together with the log
lines accumulated onto `log`. -/
def process_directory (action : WalkEntry → Except (List Char) Unit) :
    List (Except (List Char) WalkEntry) → List (List Char) →
      Except (List Char) Unit × List (List Char)
  | [], log => (.ok (), log)
  | .error e :: rest, log =>
      process_directory action rest (log ++ [walk_error_line e])
  | .ok ent :: rest, log =>
      if ent.is_file then
        match action ent with
        | .ok _ => process_directory action rest log
        | .error e =>
            process_directory action rest (log ++ [action_error_line ent.path e])
      else process_directory action rest log

/-- A directory entry as seen by the file-type predicates of
`src/utils.rs`: whether `entry.file_type().is_dir()`, and
`entry.file_name().to_str()` — `some` holding the name's characters when
the OS file name is valid UTF-8, `none` otherwise. -/
structure WDirEntry where
  is_dir : Bool
  file_name_utf8 : Option (List Char)
deriving Repr, DecidableEq

/-- Models `s.to_ascii_uppercase().ends_with(suffix)`: ASCII-uppercase every
character, then test for the suffix. -/
def upper_ends_with (s suffix : List Char) : Bool :=
  List.isSuffixOf suffix (s.map Char.toUpper)

/-- Lines 18-25 of `src/utils.rs`: true for directories, else true exactly
when the file name is valid UTF-8 and its ASCII uppercasing ends with
`.ZIP`. -/
def is_zip_file (e : WDirEntry) : Bool :=
  e.is_dir
    || (e.file_name_utf8.map (fun s => upper_ends_with s (String.toList ".ZIP"))).getD false

/-- Lines 27-34 of `src/utils.rs`: as `is_zip_file`, for `.RAR`. -/
def is_rar_file (e : WDirEntry) : Bool :=
  e.is_dir
    || (e.file_name_utf8.map (fun s => upper_ends_with s (String.toList ".RAR"))).getD false

/-- Lines 36-43 of `src/utils.rs`: as `is_zip_file`, for `.7Z`. -/
def is_7z_file (e : WDirEntry) : Bool :=
  e.is_dir
    || (e.file_name_utf8.map (fun s => upper_ends_with s (String.toList ".7Z"))).getD false

/-- Lines 49-56 of `src/utils.rs`: as `is_zip_file`, for `.IPS`. -/
def is_ips_file (e : WDirEntry) : Bool :=
  e.is_dir
    || (e.file_name_utf8.map (fun s => upper_ends_with s (String.toList ".IPS"))).getD false

/-- A per-hunk fallibility oracle for modelling I/O failures during the hunk
loop: `ok i = true` when the seek-and-write of the `i`-th hunk succeeds.
`apply_hunks_fallible ok i f hs` runs the loop of `src/main.rs` lines
226-229 from hunk index `i` on contents `f`: the `?` operator makes the
first failing seek or write return the error immediately, leaving the
contents as already written. -/
def apply_hunks_fallible (ok : Nat → Bool) :
    Nat → List Byte → List Hunk → Except Unit Unit × List Byte
  | _, f, [] => (.ok (), f)
  | i, f, h :: hs =>
    if ok i then apply_hunks_fallible ok (i + 1) (write_at f h.offset h.payload) hs
    else (.error (), f)

/-- Lines 226-236 of `src/main.rs` with the fallibility oracle: run the hunk
loop; only when every hunk write succeeded is the optional truncation
applied and `Ok(())` returned. -/
def apply_patch_fallible (ok : Nat → Bool) (p : Patch) (f : List Byte) :
    Except Unit Unit × List Byte :=
  match apply_hunks_fallible ok 0 f p.hunks with
  | (.error e, f2) => (.error e, f2)
  | (.ok _, f2) =>
    match p.truncation with
    | some t => (.ok (), set_len f2 t)
    | none => (.ok (), f2)

/-! ### Helper lemmas -/

/-- The part of `write_at` in front of the payload (kept bytes plus zero
fill) has length exactly `off`. -/
theorem write_at_front_length (f : List Byte) (off : Nat) :
    (f.take off ++ List.replicate (off - f.length) 0).length = off := by
  simp only [List.length_append, List.length_take, List.length_replicate]
  omega

/-- Inside the written span, the result of `write_at` holds the payload's
bytes: position `off + j` holds `payload[j]`. -/
theorem write_at_getElem (f p : List Byte) (off j : Nat) (hj : j < p.length) :
    (write_at f off p)[off + j]? = p[j]? := by
  have hlen := write_at_front_length f off
  unfold write_at
  rw [List.append_assoc]
  rw [List.getElem?_append_right (le_trans (le_of_eq hlen) (Nat.le_add_right off j))]
  rw [hlen, Nat.add_sub_cancel_left]
  exact List.getElem?_append_left hj

/-- `set_len` always produces a file of exactly the requested length. -/
theorem set_len_length (f : List Byte) (n : Nat) : (set_len f n).length = n := by
  simp only [set_len, List.length_append, List.length_take, List.length_replicate]
  omega

/-- Unfolding the hunk loop one step: applying `h :: hs` applies `h` first,
then the rest on the updated contents. -/
theorem apply_hunks_cons (f : List Byte) (h : Hunk) (hs : List Hunk) :
    apply_hunks f (h :: hs) = apply_hunks (write_at f h.offset h.payload) hs := rfl

/-! ### Claims -/

/-- Claim C1: for every parsed patch carrying a truncation value, the
engine applies the truncation only after every hunk has been written (the
result is `set_len` of the post-hunks contents), and when the truncation
length is shorter than the end offset of some hunk, the resulting file's
final length equals the truncation value exactly. -/
theorem truncation_after_all_hunks (p : Patch) (f : List Byte) (t : Nat)
    (htr : p.truncation = some t)
    (hshort : ∃ h, h ∈ p.hunks ∧ t < h.offset + h.payload.length) :
    apply_patch p f = set_len (apply_hunks f p.hunks) t
      ∧ (apply_patch p f).length = t := by
  have heq : apply_patch p f = set_len (apply_hunks f p.hunks) t := by
    simp [apply_patch, htr]
  exact ⟨heq, by rw [heq]; exact set_len_length _ _⟩

/-- A hunk writing bytes 5..8 of a 10-byte file. -/
def hunk_c1 : Hunk := ⟨5, List.replicate 4 255⟩

/-- A patch whose truncation (7) is shorter than its hunk's end offset (9). -/
def patch_c1 : Patch := ⟨[hunk_c1], some 7⟩

/-- Witness for claim C1 at a concrete patch and base file. -/
theorem truncation_after_all_hunks_witness :
    patch_c1.truncation = some 7 ∧ 7 < hunk_c1.offset + hunk_c1.payload.length
      ∧ (apply_patch patch_c1 (List.replicate 10 0)).length = 7 :=
  ⟨rfl, by decide,
    (truncation_after_all_hunks patch_c1 (List.replicate 10 0) 7 rfl
      ⟨hunk_c1, by decide, by decide⟩).2⟩

/-- Claim C2: for a patch containing two hunks with overlapping byte
ranges, the engine applies them strictly in parsed order (the result is the
second write applied after the first), and every byte in the overlapping
region equals the later hunk's payload byte (last-applied-wins). -/
theorem overlap_last_applied_wins (p : Patch) (h1 h2 : Hunk) (f : List Byte)
    (k : Nat)
    (hhunks : p.hunks = [h1, h2]) (htr : p.truncation = none)
    (hov1 : h1.offset < h2.offset + h2.payload.length)
    (hov2 : h2.offset < h1.offset + h1.payload.length)
    (hk1 : max h1.offset h2.offset ≤ k)
    (hk2 : k < min (h1.offset + h1.payload.length)
      (h2.offset + h2.payload.length)) :
    apply_patch p f = write_at (write_at f h1.offset h1.payload) h2.offset h2.payload
      ∧ (apply_patch p f)[k]? = h2.payload[k - h2.offset]? := by
  have heq : apply_patch p f
      = write_at (write_at f h1.offset h1.payload) h2.offset h2.payload := by
    simp [apply_patch, htr, hhunks, apply_hunks]
  refine ⟨heq, ?_⟩
  rw [heq]
  have hk1' : h2.offset ≤ k := le_trans (le_max_right _ _) hk1
  have hk2' : k < h2.offset + h2.payload.length :=
    lt_of_lt_of_le hk2 (min_le_right _ _)
  have hj : k - h2.offset < h2.payload.length := by omega
  have hw := write_at_getElem (write_at f h1.offset h1.payload) h2.payload
    h2.offset (k - h2.offset) hj
  rwa [Nat.add_sub_cancel' hk1'] at hw

/-- First hunk of the C2 witness: bytes 0..3. -/
def hunk_c2a : Hunk := ⟨0, [1, 1, 1, 1]⟩

/-- Second hunk of the C2 witness: bytes 2..4, overlapping the first. -/
def hunk_c2b : Hunk := ⟨2, [7, 7, 7]⟩

/-- A patch with two overlapping hunks and no truncation. -/
def patch_c2 : Patch := ⟨[hunk_c2a, hunk_c2b], none⟩

/-- Witness for claim C2: byte 3 lies in the overlap of the two hunks and
ends up holding the later hunk's payload byte. -/
theorem overlap_last_applied_wins_witness :
    patch_c2.hunks = [hunk_c2a, hunk_c2b] ∧ patch_c2.truncation = none
      ∧ (apply_patch patch_c2 [0, 0, 0, 0, 0, 0])[3]?
          = hunk_c2b.payload[3 - hunk_c2b.offset]? :=
  ⟨rfl, rfl,
    (overlap_last_applied_wins patch_c2 hunk_c2a hunk_c2b [0, 0, 0, 0, 0, 0] 3
      rfl rfl (by decide) (by decide) (by decide) (by decide)).2⟩

/-- Claim C3: a hunk whose offset exceeds the current file length grows the
file — the output is the original bytes, then zero fill up to the offset,
then the payload at exactly that offset — and the new length is the hunk's
end offset. -/
theorem grow_past_eof (f : List Byte) (h : Hunk) (hoff : f.length < h.offset) :
    write_at f h.offset h.payload
        = f ++ List.replicate (h.offset - f.length) 0 ++ h.payload
      ∧ (write_at f h.offset h.payload).length = h.offset + h.payload.length := by
  have htake : f.take h.offset = f := List.take_of_length_le (le_of_lt hoff)
  have hdrop : f.drop (h.offset + h.payload.length) = [] :=
    List.drop_eq_nil_of_le (by omega)
  constructor
  · simp [write_at, htake, hdrop]
  · simp only [write_at, htake, hdrop, List.append_nil, List.length_append,
      List.length_replicate]
    omega

/-- A hunk past the end of a 3-byte file. -/
def hunk_c3 : Hunk := ⟨5, [9, 9]⟩

/-- Witness for claim C3 at a concrete short file. -/
theorem grow_past_eof_witness :
    ([1, 2, 3] : List Byte).length < hunk_c3.offset
      ∧ write_at [1, 2, 3] hunk_c3.offset hunk_c3.payload
          = [1, 2, 3]
            ++ List.replicate (hunk_c3.offset - ([1, 2, 3] : List Byte).length) 0
            ++ hunk_c3.payload :=
  ⟨by decide, (grow_past_eof [1, 2, 3] hunk_c3 (by decide)).1⟩

/-- Claim C4: applying the same well-formed patch buffer to two independent
fresh copies of the same base file produces byte-identical outputs — the
whole per-file operation is a deterministic function of the base-file bytes
and the patch bytes. -/
theorem deterministic_reapplication (patch_bytes f1 f2 : List Byte) (p : Patch)
    (hwf : Patch.parse patch_bytes = .ok p) (hcopy : f1 = f2) :
    patch_file_contents patch_bytes f1 = patch_file_contents patch_bytes f2 := by
  rw [hcopy]

/-- A well-formed patch buffer: header, one hunk at offset 3 with a 2-byte
payload, end marker, no truncation. -/
def good_buf : List Byte :=
  [80, 65, 84, 67, 72, 0, 0, 3, 0, 2, 170, 187, 69, 79, 70]

/-- The parse of `good_buf`. -/
def good_patch : Patch := ⟨[⟨3, [170, 187]⟩], none⟩

/-- Witness for claim C4 at a concrete well-formed buffer and base file. -/
theorem deterministic_reapplication_witness :
    Patch.parse good_buf = .ok good_patch
      ∧ patch_file_contents good_buf [5, 5, 5, 5, 5, 5]
          = patch_file_contents good_buf [5, 5, 5, 5, 5, 5] :=
  ⟨by rfl,
    deterministic_reapplication good_buf [5, 5, 5, 5, 5, 5] [5, 5, 5, 5, 5, 5]
      good_patch (by rfl) rfl⟩

/-- Claim C6: a malformed patch buffer fails parsing with the single
`MalformedPatch` error kind, no `Patch` is produced, and the target file is
left holding exactly the base contents, since parsing completes before any
write. -/
theorem malformed_patch_rejection (buf base : List Byte) (e : PatchError)
    (hmal : Patch.parse buf = .error e) :
    e = PatchError.malformedPatch
      ∧ patch_file_contents buf base
          = (.error PatchError.malformedPatch, base) := by
  have he : e = PatchError.malformedPatch := by cases e; rfl
  subst he
  refine ⟨rfl, ?_⟩
  simp [patch_file_contents, hmal]

/-- A patch buffer truncated mid-hunk-record: the hunk at offset 3 declares
a 5-byte payload but only 2 bytes follow. -/
def bad_buf : List Byte := [80, 65, 84, 67, 72, 0, 0, 3, 0, 5, 1, 2]

/-- Witness for claim C6 at a concrete truncated buffer. -/
theorem malformed_patch_rejection_witness :
    Patch.parse bad_buf = .error PatchError.malformedPatch
      ∧ patch_file_contents bad_buf [1, 2, 3]
          = (.error PatchError.malformedPatch, [1, 2, 3]) :=
  ⟨by rfl,
    (malformed_patch_rejection bad_buf [1, 2, 3] PatchError.malformedPatch
      (by rfl)).2⟩

/-- When the first `i` hunk writes succeed (counting from index `k`) and
write `i` fails, the fallible hunk loop surfaces the error and leaves
exactly the first `i` hunks applied. -/
theorem apply_hunks_fallible_fail (ok : Nat → Bool) :
    ∀ (hs : List Hunk) (i k : Nat) (f : List Byte),
      (∀ j, j < i → ok (k + j) = true) → ok (k + i) = false → i < hs.length →
      apply_hunks_fallible ok k f hs = (.error (), apply_hunks f (hs.take i)) := by
  intro hs
  induction hs with
  | nil => intro i k f _ _ hlt; exact absurd hlt (by simp)
  | cons h t ih =>
    intro i k f hok hfail hlt
    cases i with
    | zero =>
      have hk : ok k = false := by simpa using hfail
      simp [apply_hunks_fallible, hk, apply_hunks]
    | succ i' =>
      have hk : ok k = true := by simpa using hok 0 (Nat.succ_pos i')
      have hok' : ∀ j, j < i' → ok (k + 1 + j) = true := by
        intro j hj
        have hval := hok (j + 1) (by omega)
        have harr : k + (j + 1) = k + 1 + j := by omega
        rwa [harr] at hval
      have hfail' : ok (k + 1 + i') = false := by
        have harr : k + (i' + 1) = k + 1 + i' := by omega
        rwa [harr] at hfail
      have hlt' : i' < t.length := by simpa using Nat.lt_of_succ_lt_succ hlt
      simp only [apply_hunks_fallible, hk, if_true]
      rw [ih i' (k + 1) (write_at f h.offset h.payload) hok' hfail' hlt']
      rw [List.take_succ_cons, apply_hunks_cons]

/-- Claim C7: if the seek-and-write of hunk `i` fails after hunks
`0 .. i-1` succeeded, the engine aborts without applying any remaining hunk
and without applying the truncation, surfaces the I/O error, and leaves the
target file exactly as after the first `i` hunks — no rollback. -/
theorem write_failure_aborts (ok : Nat → Bool) (p : Patch) (f : List Byte)
    (i : Nat)
    (hok : ∀ j, j < i → ok j = true) (hfail : ok i = false)
    (hi : i < p.hunks.length) :
    apply_patch_fallible ok p f = (.error (), apply_hunks f (p.hunks.take i)) := by
  have key := apply_hunks_fallible_fail ok p.hunks i 0 f
    (fun j hj => by simpa using hok j hj) (by simpa using hfail) hi
  simp [apply_patch_fallible, key]

/-- Oracle for the C7 witness: only the write of hunk 0 succeeds. -/
def ok_w : Nat → Bool := fun n => n == 0

/-- A three-hunk patch with truncation for the C7 witness. -/
def patch_c7 : Patch := ⟨[⟨0, [1]⟩, ⟨1, [2]⟩, ⟨2, [3]⟩], some 5⟩

/-- Witness for claim C7: the write of hunk 1 fails; the engine surfaces
the error and the file holds exactly the first hunk's write. -/
theorem write_failure_aborts_witness :
    ok_w 0 = true ∧ ok_w 1 = false
      ∧ apply_patch_fallible ok_w patch_c7 [9, 9, 9]
          = (.error (), apply_hunks [9, 9, 9] (patch_c7.hunks.take 1)) :=
  ⟨rfl, rfl,
    write_failure_aborts ok_w patch_c7 [9, 9, 9] 1
      (fun j hj => by
        have hj0 : j = 0 := by omega
        subst hj0; rfl)
      rfl (by decide)⟩

/-- Claim C5: for a discovered patch entry with a parent directory, and a
base file whose name contains an extension, the derived output path is
`patched/<entry's relative dir>/<patch base name>.<base extension>`. -/
theorem output_path_extension (base : List Char) (ent : EntryPath)
    (d : List String) (b e stem rest : List Char)
    (hpar : ent.parent = some d)
    (hbase : rsplit_once '.' base = some (b, e)) (he : e ≠ [])
    (hname : rsplit_once '.' ent.fileName = some (stem, rest))
    (hstem : stem ≠ []) :
    derive_rom_file base ent = .ok ("patched" :: d) (stem ++ '.' :: e) := by
  simp [derive_rom_file, hpar, hbase, set_extension, hname, hstem, he]

/-- The discovered patch entry of the C5 witness: `downloads/dir/fix.ips`. -/
def ent_c5 : EntryPath := ⟨some ["downloads", "dir"], String.toList "fix.ips"⟩

/-- Witness for claim C5: base `game.sfc` and patch `downloads/dir/fix.ips`
derive the output `patched/downloads/dir/fix.sfc`. -/
theorem output_path_extension_witness :
    rsplit_once '.' (String.toList "game.sfc")
        = some (String.toList "game", String.toList "sfc")
      ∧ derive_rom_file (String.toList "game.sfc") ent_c5
          = .ok ["patched", "downloads", "dir"] (String.toList "fix.sfc") := by
  refine ⟨rfl, ?_⟩
  rw [output_path_extension (String.toList "game.sfc") ent_c5
    ["downloads", "dir"] (String.toList "game") (String.toList "sfc")
    (String.toList "fix") (String.toList "ips") rfl rfl (by decide) rfl
    (by decide)]
  rfl

/-- The entry used to exercise the missing-extension path of C8. -/
def ent_c8 : EntryPath := ⟨some ["downloads"], String.toList "fix.ips"⟩

/-- Claim C8, code evaluated at the failing input: when the base-rom name
has no dot, lines 197-198 of `src/main.rs` call `.unwrap()` on the `None`
returned by `rsplit_once` and panic, so the outcome is a panic — not a
recoverable per-file error of any kind — contradicting the claimed
`PathResolution` error caught at the per-file boundary. -/
theorem missing_extension_panics :
    derive_rom_file (String.toList "game") ent_c8 = PathOutcome.panicked
      ∧ (derive_rom_file (String.toList "game") ent_c8).isErr = false := by
  exact ⟨rfl, rfl⟩

/-- The batch driver's own result is always success, whatever the walk
yields and whatever the per-file action returns. -/
theorem process_directory_fst (action : WalkEntry → Except (List Char) Unit) :
    ∀ (entries : List (Except (List Char) WalkEntry)) (log : List (List Char)),
      (process_directory action entries log).1 = .ok () := by
  intro entries
  induction entries with
  | nil => intro log; rfl
  | cons x rest ih =>
    intro log
    cases x with
    | error e => exact ih (log ++ [walk_error_line e])
    | ok ent =>
      cases hf : ent.is_file with
      | false => simpa [process_directory, hf] using ih log
      | true =>
        cases haction : action ent with
        | ok u => simpa [process_directory, hf, haction] using ih log
        | error e =>
            simpa [process_directory, hf, haction] using
              ih (log ++ [action_error_line ent.path e])

/-- Claim C9: when the per-file action fails on a file entry, the driver
logs a line naming the entry's path and the error and continues with the
remaining discovered entries; a per-file action error never aborts the
batch and the driver's overall result is success. -/
theorem action_error_continues (action : WalkEntry → Except (List Char) Unit)
    (ent : WalkEntry) (rest : List (Except (List Char) WalkEntry))
    (log : List (List Char)) (e : List Char)
    (hfile : ent.is_file = true) (herr : action ent = .error e) :
    process_directory action (.ok ent :: rest) log
        = process_directory action rest (log ++ [action_error_line ent.path e])
      ∧ (process_directory action (.ok ent :: rest) log).1 = .ok () := by
  refine ⟨?_, process_directory_fst action _ log⟩
  simp [process_directory, hfile, herr]

/-- An always-failing per-file action for the C9 witness. -/
def action_w : WalkEntry → Except (List Char) Unit :=
  fun _ => .error (String.toList "boom")

/-- A discovered file entry for the C9 witness. -/
def ent_w : WalkEntry := ⟨String.toList "downloads/a.ips", true⟩

/-- Witness for claim C9: an action error on the only discovered file still
yields overall success. -/
theorem action_error_continues_witness :
    ent_w.is_file = true ∧ action_w ent_w = .error (String.toList "boom")
      ∧ (process_directory action_w [.ok ent_w] []).1 = .ok () :=
  ⟨rfl, rfl,
    (action_error_continues action_w ent_w [] [] (String.toList "boom")
      rfl rfl).2⟩

/-- Claim C10: each file-type predicate is true for every directory entry
unconditionally, and for a non-directory entry it is true exactly when the
file name is valid UTF-8 and its ASCII uppercasing ends with the respective
extension — matching is case-insensitive and non-UTF-8 names are never
selected. -/
theorem filter_predicates (e : WDirEntry) :
    (e.is_dir = true →
        is_zip_file e = true ∧ is_rar_file e = true
          ∧ is_7z_file e = true ∧ is_ips_file e = true)
      ∧ (e.is_dir = false →
          (is_zip_file e = true ↔
              ∃ s, e.file_name_utf8 = some s
                ∧ upper_ends_with s (String.toList ".ZIP") = true)
            ∧ (is_rar_file e = true ↔
                ∃ s, e.file_name_utf8 = some s
                  ∧ upper_ends_with s (String.toList ".RAR") = true)
            ∧ (is_7z_file e = true ↔
                ∃ s, e.file_name_utf8 = some s
                  ∧ upper_ends_with s (String.toList ".7Z") = true)
            ∧ (is_ips_file e = true ↔
                ∃ s, e.file_name_utf8 = some s
                  ∧ upper_ends_with s (String.toList ".IPS") = true)) := by
  obtain ⟨d, n⟩ := e
  cases d
  · cases n with
    | none =>
        simp [is_zip_file, is_rar_file, is_7z_file, is_ips_file]
    | some s =>
        simp [is_zip_file, is_rar_file, is_7z_file, is_ips_file]
  · simp [is_zip_file, is_rar_file, is_7z_file, is_ips_file]

/-- A directory entry, accepted by every filter. -/
def dir_entry_w : WDirEntry := ⟨true, none⟩

/-- A mixed-case `.ips` file entry. -/
def ips_entry_w : WDirEntry := ⟨false, some (String.toList "Fix.IpS")⟩

/-- Witness for claim C10: a mixed-case `.ips` name is selected by
`is_ips_file` and a directory is accepted by `is_zip_file`. -/
theorem filter_predicates_witness :
    is_ips_file ips_entry_w = true ∧ is_zip_file dir_entry_w = true :=
  ⟨((filter_predicates ips_entry_w).2 rfl).2.2.2.mpr
      ⟨String.toList "Fix.IpS", rfl, by decide⟩,
    ((filter_predicates dir_entry_w).1 rfl).1⟩

end MetconstTool
